import Mathlib

/-!
Shallow embedding of `Nexys-A7-100T-DMA-Audio-SW/src/helloworld.c`.

Machine integers are modelled as `Nat` (with explicit `% 2^w` where the C
types wrap): `u8` values carry `% 256`, `u16` values `% 65536`, `u32`
values `% 2^32`.  The hardware collaborators (AXI DMA engine, GPIO, UART,
cache) are abstracted exactly as the source uses them: the outcome of
`XAxiDma_SimpleTransfer` and the post-transfer error-status bit become
boolean parameters, and the side-effecting calls become events in a trace.
-/

namespace NexysA7

/-- `buf2u32` from the source: little-endian decode of four `u8` bytes
(`(buffer[3] << 24) | (buffer[2] << 16) | (buffer[1] << 8) | buffer[0]`).
The `% 256` models the `u8` type of the array elements. -/
def buf2u32 (b0 b1 b2 b3 : Nat) : Nat :=
  ((b3 % 256) <<< 24) ||| ((b2 % 256) <<< 16) ||| ((b1 % 256) <<< 8) ||| (b0 % 256)

/-- `buf2u16` from the source: `(buffer[1] << 8) | buffer[0]`. -/
def buf2u16 (b0 b1 : Nat) : Nat :=
  ((b1 % 256) <<< 8) ||| (b0 % 256)

theorem buf2u32_lt (b0 b1 b2 b3 : Nat) : buf2u32 b0 b1 b2 b3 < 2 ^ 32 := by
  have h0 : b0 % 256 < 2 ^ 32 := by have := Nat.mod_lt b0 (by norm_num : 0 < 256); omega
  have h1 : (b1 % 256) <<< 8 < 2 ^ 32 := by
    rw [Nat.shiftLeft_eq]
    have := Nat.mod_lt b1 (by norm_num : 0 < 256)
    norm_num; omega
  have h2 : (b2 % 256) <<< 16 < 2 ^ 32 := by
    rw [Nat.shiftLeft_eq]
    have := Nat.mod_lt b2 (by norm_num : 0 < 256)
    norm_num; omega
  have h3 : (b3 % 256) <<< 24 < 2 ^ 32 := by
    rw [Nat.shiftLeft_eq]
    have := Nat.mod_lt b3 (by norm_num : 0 < 256)
    norm_num; omega
  exact Nat.or_lt_two_pow (Nat.or_lt_two_pow (Nat.or_lt_two_pow h3 h2) h1) h0

/-! ## Mode state machine (`DemoMode`, first `switch` of the main loop) -/

/-- The functioning modes of the demo (`enum DemoMode`). -/
inductive DemoMode
  | paused
  | hwToneGen
  | swToneGen
  | recvWavFile
  | playWavFile
deriving DecidableEq

/-- The first `switch (data.button_pe)` of the main loop: an exact-match
dispatch on the button positive-edge bitmask (`u8`).  `0x01` pauses,
`0x04` receives, `0x08` plays, `0x10` starts software tone generation;
the `0x02` hardware-tone case is commented out in the source, and any
other mask matches no case, leaving the mode unchanged. -/
def mainModeTransition (mode : DemoMode) (button_pe : Nat) : DemoMode :=
  if button_pe = 0x01 then DemoMode.paused
  else if button_pe = 0x04 then DemoMode.recvWavFile
  else if button_pe = 0x08 then DemoMode.playWavFile
  else if button_pe = 0x10 then DemoMode.swToneGen
  else mode

/-! ## WAV receive length (`recv_wav`, line `var = buf2u32(p_header->overall_size) - 4`) -/

/-- The remaining-byte count computed in `recv_wav` from the header's
`overall_size` bytes: `buf2u32(overall_size) - 4` with `u32`
(wraparound) subtraction. -/
def computeReceiveLength (b0 b1 b2 b3 : Nat) : Nat :=
  (buf2u32 b0 b1 b2 b3 + (2 ^ 32 - 4)) % 2 ^ 32

/-! ## 16-bit to 8-bit downscale (`play_wav` loop body) -/

/-- The downscale expression of `play_wav`:
`dma_data[i] = (u8)((u16)(wav_data[i] + 32768) >> 8)`.
The argument is the `u16` sample value read from memory; `+ 32768` happens
in `int` arithmetic, the `(u16)` cast wraps mod `2^16`, `>> 8` drops the
low byte and the final `(u8)` cast wraps mod `2^8`. -/
def downscaleTo8Bit (w : Nat) : Nat :=
  (((w % 65536 + 32768) % 65536) >>> 8) % 256

/-- Two's-complement `u16` representation of a signed 16-bit sample. -/
def toU16 (s : Int) : Nat := (s % 65536).toNat

/-- The conversion as the spec words it: add 32768 to the signed sample
with 16-bit wraparound, then take the upper 8 bits of the 16-bit result. -/
def downscaleSpec (s : Int) : Nat := ((s + 32768) % 65536).toNat / 256

/-! ## Sample packing wire format (`dma_sw_tone_gen`, buffer writes) -/

/-- Packing of the source (lines writing `((u32*)buffer)[i]` and `[i+1]`):
four consecutive `u8` samples `s0 s1 s2 s3` become the two words
`(s3 << 8) + s2` and `(s1 << 8) + s0`, in that order. -/
def packSamples : List Nat → List Nat
  | s0 :: s1 :: s2 :: s3 :: rest =>
      ((s3 <<< 8) + s2) :: ((s1 <<< 8) + s0) :: packSamples rest
  | _ => []

/-- Unpacking under the same word layout: from `w0 = (s3 << 8) | s2` and
`w1 = (s1 << 8) | s0` recover `s0 s1 s2 s3` as the low and high bytes. -/
def unpackWords : List Nat → List Nat
  | w0 :: w1 :: rest =>
      (w1 % 256) :: (w1 / 256 % 256) :: (w0 % 256) :: (w0 / 256 % 256) :: unpackWords rest
  | _ => []

theorem pack_unpack_aux (l : List Nat) (hb : ∀ x ∈ l, x < 256)
    (hl : l.length % 4 = 0) : unpackWords (packSamples l) = l :=
  match l, hb, hl with
  | [], _, _ => rfl
  | [_], _, hl => by simp at hl
  | [_, _], _, hl => by simp at hl
  | [_, _, _], _, hl => by simp at hl
  | s0 :: s1 :: s2 :: s3 :: rest, hb, hl => by
    have h0 : s0 < 256 := hb s0 (by simp)
    have h1 : s1 < 256 := hb s1 (by simp)
    have h2 : s2 < 256 := hb s2 (by simp)
    have h3 : s3 < 256 := hb s3 (by simp)
    have hr : unpackWords (packSamples rest) = rest :=
      pack_unpack_aux rest (fun x hx => hb x (by simp [hx]))
        (by simp only [List.length_cons] at hl ⊢; omega)
    simp only [packSamples, unpackWords, hr, Nat.shiftLeft_eq, List.cons.injEq]
    norm_num
    refine ⟨?_, ?_, ?_, ?_⟩ <;> omega

/-! ## DMA channel (`dma_receive`, `dma_send`)

The hardware outcome is abstracted by two booleans exactly where the
source consults it: `initOk` is whether `XAxiDma_SimpleTransfer` returned
`XST_SUCCESS`, `errFlag` is whether the status register read after the
busy spin-wait has a bit of `XAXIDMA_IRQ_ERROR_MASK` set.  The spin-wait
(assumed to terminate, as the source has no timeout) is one `busyWait`
event; each `Xil_DCacheFlushRange` call is a `flushRange` event. -/

inductive DmaEv
  | flushRange
  | initiateTransfer
  | busyWait
deriving DecidableEq

inductive XStatus
  | success
  | failure
deriving DecidableEq

/-- `dma_receive`: flush, initiate; on initiation failure return
`XST_FAILURE` at once; otherwise spin on busy, then return `XST_FAILURE`
if the error bit is set, else flush again and return `XST_SUCCESS`. -/
def dma_receive (initOk errFlag : Bool) : List DmaEv × XStatus :=
  if !initOk then
    ([DmaEv.flushRange, DmaEv.initiateTransfer], XStatus.failure)
  else if errFlag then
    ([DmaEv.flushRange, DmaEv.initiateTransfer, DmaEv.busyWait], XStatus.failure)
  else
    ([DmaEv.flushRange, DmaEv.initiateTransfer, DmaEv.busyWait, DmaEv.flushRange],
     XStatus.success)

/-- `dma_send`: flush, initiate; an initiation failure is only logged
(`xil_printf`) and control falls through to the busy spin-wait, so the
outcome and the rest of the trace do not depend on `initOk`; after the
wait, return `XST_FAILURE` if the error bit is set, else flush again and
return `XST_SUCCESS`. -/
def dma_send (_initOk errFlag : Bool) : List DmaEv × XStatus :=
  if errFlag then
    ([DmaEv.flushRange, DmaEv.initiateTransfer, DmaEv.busyWait], XStatus.failure)
  else
    ([DmaEv.flushRange, DmaEv.initiateTransfer, DmaEv.busyWait, DmaEv.flushRange],
     XStatus.success)

/-! ## WAV playback (`play_wav`)

The file buffer is a byte list; reads use `List.getD` with default 0, so
an index past the end of the modelled buffer yields the content of the
zero-filled backing allocation (`memset(file, 0, max_file_size)`), just
as the out-of-bounds pointer dereference in the source reads whatever
lies past the received bytes.  `play_wav` performs: the pointer walk to
the format and data chunks, the `preparing for playback` print, the
first-byte sentinel check (diagnostic and abort to paused), otherwise
allocation of the downscale buffer, the downscale loop, `dma_send`,
`sleep`, `free`, `dma_reset` and the transition to paused. -/

/-- Byte read at index `i` of the file buffer (`u8` value). -/
def byteAt (file : List Nat) (i : Nat) : Nat := (file.getD i 0) % 256

/-- `buf2u32(p_format->fmt_chunk_size)`: the format-chunk size field at
bytes 16..19 (`ptr += 12`, field at offset 4 of `Wav_FormatRaw`). -/
def fmtChunkSize (file : List Nat) : Nat :=
  buf2u32 (byteAt file 16) (byteAt file 17) (byteAt file 18) (byteAt file 19)

/-- The byte offset of the data chunk header used by the decoder:
`ptr += 12; ptr += 8 + buf2u32(p_format->fmt_chunk_size)`. -/
def dataChunkOffset (file : List Nat) : Nat := 12 + (8 + fmtChunkSize file)

/-- `buf2u32(p_data->data_chunk_size)`: field at offset 4 of
`Wav_DataRaw`, i.e. bytes `dataChunkOffset + 4 ..+ 7`. -/
def dataChunkSize (file : List Nat) : Nat :=
  buf2u32 (byteAt file (dataChunkOffset file + 4)) (byteAt file (dataChunkOffset file + 5))
    (byteAt file (dataChunkOffset file + 6)) (byteAt file (dataChunkOffset file + 7))

/-- `wav_data[k]`: the `u16` sample at byte offset `dataChunkOffset + 8 + 2*k`
(little-endian, `wav_data = (u16*)(file + dataChunkOffset + 8)`). -/
def wavSampleU16 (file : List Nat) (k : Nat) : Nat :=
  buf2u16 (byteAt file (dataChunkOffset file + 8 + 2 * k))
    (byteAt file (dataChunkOffset file + 8 + 2 * k + 1))

inductive PlayEv
  | info
  | diagNoFile
  | alloc (n : Nat)
  | dmaSend (n : Nat)
  | free
  | dmaReset
deriving DecidableEq

/-- The bounds-checked locator described by the spec (for comparison: the
source performs no such check and has no failure outcome here). -/
def locateDataChunk_spec (file : List Nat) : Option Nat :=
  if dataChunkOffset file ≤ file.length then some (dataChunkOffset file) else none

/-- `play_wav`, returning the event trace, the final mode and the
downscaled DMA buffer contents.  `dma_data_length` is
`buf2u32(p_data->data_chunk_size) * sizeof(u8) / sizeof(u16)`, i.e.
`* 1 / 2`. -/
def play_wav (file : List Nat) : List PlayEv × DemoMode × List Nat :=
  if byteAt file 0 = 0 then
    ([PlayEv.info, PlayEv.diagNoFile], DemoMode.paused, [])
  else
    ([PlayEv.info, PlayEv.alloc (dataChunkSize file * 1 / 2),
      PlayEv.dmaSend (dataChunkSize file * 1 / 2), PlayEv.free, PlayEv.dmaReset],
     DemoMode.paused,
     (List.range (dataChunkSize file * 1 / 2)).map
       fun k => downscaleTo8Bit (wavSampleU16 file k))

/-- A 44-byte buffer whose first byte is nonzero and whose declared
format-chunk size (bytes 16..19) is 100, so the data-chunk offset 120
lies far past the end of the buffer. -/
def wavCexFile : List Nat :=
  [82, 0, 0, 0, 0, 0, 0, 0, 0, 0, 0, 0, 0, 0, 0, 0, 100, 0, 0, 0,
   0, 0, 0, 0, 0, 0, 0, 0, 0, 0, 0, 0, 0, 0, 0, 0, 0, 0, 0, 0, 0, 0, 0, 0]

/-! ## Software tone generation (`dma_sw_tone_gen`)

The sample value `Y` is computed with `double` sine arithmetic; its exact
value is irrelevant to the claims below, so the generated samples are an
arbitrary function `samp : Nat → Nat`, with the `(u8)Y` store modelled by
`% 256`.  The loop counters `sample` (a `u16`) and `time` (a `float`
incremented by 1.0 each iteration; integer values this small are exact in
`float`) both start at 0 and advance by 1 per iteration, so they are
modelled as `Nat`. -/

structure GenState where
  temp0 : Nat
  temp1 : Nat
  temp2 : Nat
  temp3 : Nat
  i : Nat
  buf : List Nat

/-- One iteration of the generation loop body (the `sample % 4` if-chain):
samples land in `temp[sample % 4]`, and on the fourth one the two words
`(temp[3]<<8) + temp[2]` and `(temp[1]<<8) + temp[0]` are appended at
buffer indices `i` and `i+1`, after which `i += 2`. -/
def genStep (samp : Nat → Nat) (n : Nat) (s : GenState) : GenState :=
  if n % 4 = 0 then { s with temp0 := samp n % 256 }
  else if n % 4 = 1 then { s with temp1 := samp n % 256 }
  else if n % 4 = 2 then { s with temp2 := samp n % 256 }
  else
    { s with temp3 := samp n % 256,
             i := s.i + 2,
             buf := s.buf ++ [((samp n % 256) <<< 8) + s.temp2,
                              (s.temp1 <<< 8) + s.temp0] }

/-- Iterate `genStep` over sample indices `start, start+1, ..., start+k-1`. -/
def applyN (samp : Nat → Nat) : Nat → Nat → GenState → GenState
  | _, 0, s => s
  | start, k + 1, s => applyN samp (start + 1) k (genStep samp start s)

/-- The state before the loop: `i = 0`, empty buffer.  (The `temp` array
is uninitialized in the source; its initial bytes are never read before
being written within a complete group, so any value serves — 0 here.) -/
def initGenState : GenState := ⟨0, 0, 0, 0, 0, []⟩

/-- The loop body iterated over the first `n` sample indices. -/
def genRun (samp : Nat → Nat) (n : Nat) : GenState := applyN samp 0 n initGenState

/-- The generation loop with its guard
`for (u16 sample=0; sample < 256 && time < 48; sample++) { ...; time++ }`,
returning the final `sample` value (= number of iterations) and state.
Recursion is on a fuel argument of 256: the guard `sample < 256` with
`sample` starting at 0 bounds the iteration count by 256, so this fuel is
never the binding constraint (`genLoopAux_spec` makes that visible). -/
def genLoopAux (samp : Nat → Nat) : Nat → Nat → Nat → GenState → Nat × GenState
  | 0, sample, _, s => (sample, s)
  | fuel + 1, sample, time, s =>
    if sample < 256 ∧ time < 48 then
      genLoopAux samp fuel (sample + 1) (time + 1) (genStep samp sample s)
    else (sample, s)

/-- The generation loop of `dma_sw_tone_gen` as executed, from
`sample = 0`, `time = 0`. -/
def dma_sw_tone_gen_loop (samp : Nat → Nat) : Nat × GenState :=
  genLoopAux samp 256 0 0 initGenState

/-- The two words the loop writes for sample group `g` (samples
`4g .. 4g+3`), in the order they are stored at indices `i`, `i+1`. -/
def groupWords (samp : Nat → Nat) (g : Nat) : List Nat :=
  [((samp (4 * g + 3) % 256) <<< 8) + samp (4 * g + 2) % 256,
   ((samp (4 * g + 1) % 256) <<< 8) + samp (4 * g) % 256]

theorem genLoopAux_spec (samp : Nat → Nat) :
    ∀ (fuel sample time : Nat) (s : GenState),
      genLoopAux samp fuel sample time s =
        (sample + min fuel (min (256 - sample) (48 - time)),
         applyN samp sample (min fuel (min (256 - sample) (48 - time))) s) := by
  intro fuel
  induction fuel with
  | zero =>
    intro sample time s
    simp [genLoopAux, applyN]
  | succ f ih =>
    intro sample time s
    rw [genLoopAux]
    by_cases h : sample < 256 ∧ time < 48
    · rw [if_pos h, ih]
      have hm : min (f + 1) (min (256 - sample) (48 - time)) =
          min f (min (256 - (sample + 1)) (48 - (time + 1))) + 1 := by omega
      rw [hm]
      have hs : sample + 1 + min f (min (256 - (sample + 1)) (48 - (time + 1))) =
          sample + (min f (min (256 - (sample + 1)) (48 - (time + 1))) + 1) := by omega
      rw [hs]
      rfl
    · rw [if_neg h]
      have hm : min (f + 1) (min (256 - sample) (48 - time)) = 0 := by omega
      rw [hm]
      simp [applyN]

theorem applyN_add (samp : Nat → Nat) (a : Nat) :
    ∀ (b start : Nat) (s : GenState),
      applyN samp start (a + b) s = applyN samp (start + a) b (applyN samp start a s) := by
  induction a with
  | zero => intro b start s; simp [applyN]
  | succ a ih =>
    intro b start s
    rw [show a + 1 + b = (a + b) + 1 from by omega,
        show start + (a + 1) = start + 1 + a from by omega]
    show applyN samp (start + 1) (a + b) (genStep samp start s) =
      applyN samp (start + 1 + a) b (applyN samp (start + 1) a (genStep samp start s))
    exact ih b (start + 1) (genStep samp start s)

theorem applyN_group (samp : Nat → Nat) (g : Nat) (s : GenState) :
    applyN samp (4 * g) 4 s =
      { temp0 := samp (4 * g) % 256, temp1 := samp (4 * g + 1) % 256,
        temp2 := samp (4 * g + 2) % 256, temp3 := samp (4 * g + 3) % 256,
        i := s.i + 2,
        buf := s.buf ++ groupWords samp g } := by
  have h0 : 4 * g % 4 = 0 := by omega
  have h1 : (4 * g + 1) % 4 = 1 := by omega
  have h2 : (4 * g + 2) % 4 = 2 := by omega
  have h3 : (4 * g + 3) % 4 = 3 := by omega
  have e : applyN samp (4 * g) 4 s =
      genStep samp (4 * g + 3)
        (genStep samp (4 * g + 2) (genStep samp (4 * g + 1) (genStep samp (4 * g) s))) := rfl
  rw [e]
  simp [genStep, groupWords, h0, h1, h2, h3]

theorem applyN_keeps (samp : Nat → Nat) (q r : Nat) (hr : r ≤ 3) (s : GenState) :
    (applyN samp (4 * q) r s).i = s.i ∧ (applyN samp (4 * q) r s).buf = s.buf := by
  have h0 : 4 * q % 4 = 0 := by omega
  have h1 : (4 * q + 1) % 4 = 1 := by omega
  have h2 : (4 * q + 2) % 4 = 2 := by omega
  interval_cases r
  · exact ⟨rfl, rfl⟩
  · have e : applyN samp (4 * q) 1 s = genStep samp (4 * q) s := rfl
    rw [e]; simp [genStep, h0]
  · have e : applyN samp (4 * q) 2 s =
        genStep samp (4 * q + 1) (genStep samp (4 * q) s) := rfl
    rw [e]; simp [genStep, h0, h1]
  · have e : applyN samp (4 * q) 3 s =
        genStep samp (4 * q + 2) (genStep samp (4 * q + 1) (genStep samp (4 * q) s)) := rfl
    rw [e]; simp [genStep, h0, h1, h2]

theorem genRun_mul4 (samp : Nat → Nat) :
    ∀ q : Nat, (genRun samp (4 * q)).i = 2 * q ∧
      (genRun samp (4 * q)).buf = (List.range q).flatMap (groupWords samp) := by
  intro q
  induction q with
  | zero => simp [genRun, applyN, initGenState]
  | succ q ih =>
    have hsplit : genRun samp (4 * (q + 1)) =
        applyN samp (4 * q) 4 (applyN samp 0 (4 * q) initGenState) := by
      unfold genRun
      rw [show 4 * (q + 1) = 4 * q + 4 from by ring, applyN_add samp (4 * q) 4 0 initGenState,
          Nat.zero_add]
    unfold genRun at ih
    rw [hsplit, applyN_group, List.range_succ]
    constructor
    · simp [ih.1]; omega
    · simp [ih.2]

theorem groupWords_bound (samp : Nat → Nat) (g : Nat) :
    ∀ w ∈ groupWords samp g, w < 65536 := by
  intro w hw
  have ha := Nat.mod_lt (samp (4 * g + 3)) (show 0 < 256 by norm_num)
  have hb := Nat.mod_lt (samp (4 * g + 2)) (show 0 < 256 by norm_num)
  have hc := Nat.mod_lt (samp (4 * g + 1)) (show 0 < 256 by norm_num)
  have hd := Nat.mod_lt (samp (4 * g)) (show 0 < 256 by norm_num)
  simp only [groupWords, List.mem_cons, List.not_mem_nil, or_false] at hw
  rcases hw with h | h <;> rw [h, Nat.shiftLeft_eq] <;> norm_num <;> omega

/-! ## Claim theorems -/

/-- C4: packing each consecutive group of four 8-bit samples into the two
words `(s3<<8)|s2` and `(s1<<8)|s0` and unpacking under the same layout
recovers the original samples, for every buffer of `4*k` samples. -/
theorem pack_unpack_roundtrip (l : List Nat) (hb : ∀ x ∈ l, x < 256)
    (hl : l.length % 4 = 0) : unpackWords (packSamples l) = l :=
  pack_unpack_aux l hb hl

theorem pack_unpack_roundtrip_witness :
    unpackWords (packSamples [10, 20, 30, 40]) = [10, 20, 30, 40] :=
  pack_unpack_roundtrip [10, 20, 30, 40] (by decide) (by decide)

/-- C5: the 16-bit-to-8-bit downscale is pure and equals adding 32768 to
the signed sample with 16-bit wraparound then taking the upper 8 bits;
inputs 0, -32768 and 32767 map to 128, 0 and 255. -/
theorem downscale_bias_shift :
    (∀ s : Int, -32768 ≤ s → s ≤ 32767 → downscaleTo8Bit (toU16 s) = downscaleSpec s) ∧
    downscaleTo8Bit (toU16 0) = 128 ∧
    downscaleTo8Bit (toU16 (-32768)) = 0 ∧
    downscaleTo8Bit (toU16 32767) = 255 := by
  refine ⟨?_, by decide, by decide, by decide⟩
  intro s h1 h2
  simp only [downscaleTo8Bit, toU16, downscaleSpec, Nat.shiftRight_eq_div_pow]
  norm_num
  omega

theorem downscale_bias_shift_witness : downscaleTo8Bit (toU16 0) = downscaleSpec 0 :=
  downscale_bias_shift.1 0 (by decide) (by decide)

/-- C7: in the main loop's transition step a positive-edge mask of exactly
`0x01`, `0x04`, `0x08`, `0x10` selects paused, receive, play, software
tone respectively, and any other mask leaves the mode unchanged. -/
theorem mode_transition_table :
    ∀ (m : DemoMode) (pe : Nat),
      mainModeTransition m 0x01 = DemoMode.paused ∧
      mainModeTransition m 0x04 = DemoMode.recvWavFile ∧
      mainModeTransition m 0x08 = DemoMode.playWavFile ∧
      mainModeTransition m 0x10 = DemoMode.swToneGen ∧
      (pe ≠ 0x01 → pe ≠ 0x04 → pe ≠ 0x08 → pe ≠ 0x10 → mainModeTransition m pe = m) := by
  intro m pe
  refine ⟨by simp [mainModeTransition], by simp [mainModeTransition],
    by simp [mainModeTransition], by simp [mainModeTransition], ?_⟩
  intro n1 n4 n8 n16
  simp [mainModeTransition, n1, n4, n8, n16]

theorem mode_transition_table_witness :
    mainModeTransition DemoMode.swToneGen 0x05 = DemoMode.swToneGen :=
  (mode_transition_table DemoMode.swToneGen 0x05).2.2.2.2
    (by decide) (by decide) (by decide) (by decide)

/-- C9: the remaining-byte count computed in `recv_wav` equals the
header's declared overall-size field minus 4 (for any size of at least 4,
so that the `u32` subtraction does not wrap), and a header declaring
`overall_size = 44` yields 40. -/
theorem receive_length_minus_four :
    (∀ b0 b1 b2 b3 : Nat, 4 ≤ buf2u32 b0 b1 b2 b3 →
      computeReceiveLength b0 b1 b2 b3 = buf2u32 b0 b1 b2 b3 - 4) ∧
    computeReceiveLength 44 0 0 0 = 40 := by
  refine ⟨?_, by decide⟩
  intro b0 b1 b2 b3 h
  have hlt := buf2u32_lt b0 b1 b2 b3
  unfold computeReceiveLength
  norm_num at hlt ⊢
  omega

theorem receive_length_minus_four_witness :
    computeReceiveLength 44 0 0 0 = buf2u32 44 0 0 0 - 4 :=
  receive_length_minus_four.1 44 0 0 0 (by decide)

/-- C1 counterexample: with a failed initiation and a clear error flag,
`dma_send` returns `XST_SUCCESS`, contradicting the claim that the send
operation returns a transfer-failed error whenever the initiation call
signals failure. -/
theorem dma_send_init_fail_returns_success :
    (dma_send false false).2 = XStatus.success := by decide

/-- C1 amended: `dma_send` returns failure exactly when the post-transfer
error-status flag is set; a failed initiation is only logged and does not
by itself produce a failure return. -/
theorem dma_send_failure_iff_error_flag :
    ∀ initOk errFlag : Bool,
      (dma_send initOk errFlag).2 = XStatus.failure ↔ errFlag = true := by decide

/-- C3 counterexample: with a failed initiation and a clear error flag,
`dma_send` still performs the second (post-transfer) cache flush — its
trace contains two flushes and ends in one — contradicting the claim
that on the failed-initiation error path the operation returns without
the second flush. -/
theorem dma_send_second_flush_despite_init_fail :
    (dma_send false false).1.count DmaEv.flushRange = 2 ∧
    (dma_send false false).1.getLast? = some DmaEv.flushRange := by decide

/-- C3 amended: in both operations the cache flush precedes the
initiation regardless of outcome; `dma_receive` performs the second flush
exactly on its success path (failed initiation or error flag returns
without it), while `dma_send` performs the second flush exactly when the
error flag is clear — including after a failed initiation, which does not
abort `dma_send`. -/
theorem dma_flush_bracketing :
    ∀ initOk errFlag : Bool,
      (dma_receive initOk errFlag).1.take 2 = [DmaEv.flushRange, DmaEv.initiateTransfer] ∧
      (dma_send initOk errFlag).1.take 2 = [DmaEv.flushRange, DmaEv.initiateTransfer] ∧
      ((dma_receive initOk errFlag).1.count DmaEv.flushRange = 2 ↔
        (dma_receive initOk errFlag).2 = XStatus.success) ∧
      ((dma_receive initOk errFlag).2 = XStatus.success ↔
        (initOk = true ∧ errFlag = false)) ∧
      ((dma_send initOk errFlag).1.count DmaEv.flushRange = 2 ↔ errFlag = false) ∧
      ((dma_send initOk errFlag).1.getLast? = some DmaEv.flushRange ↔ errFlag = false) := by
  decide

/-- C2 counterexample: on a 44-byte buffer declaring a 100-byte format
chunk the data-chunk offset is 120, past the end of the buffer; the
spec's bounds-checked locator rejects it, but `play_wav` does not fail —
it proceeds all the way to the DMA send. -/
theorem play_wav_oob_offset_not_rejected :
    dataChunkOffset wavCexFile = 120 ∧ wavCexFile.length = 44 ∧
    locateDataChunk_spec wavCexFile = none ∧
    PlayEv.dmaSend 0 ∈ (play_wav wavCexFile).1 := by decide

/-- C2 amended: the data-chunk offset used by the decoder equals
`12 + 8 + formatChunkSize`, but no bounds check is performed: whenever
the first byte is nonzero the decoder proceeds through allocation and
the DMA send regardless of how the offset compares to the buffer
length, reading default (zero-filled) memory past the end. -/
theorem play_wav_offset_unchecked :
    ∀ file : List Nat,
      dataChunkOffset file = 12 + 8 + fmtChunkSize file ∧
      (byteAt file 0 ≠ 0 →
        (play_wav file).1 = [PlayEv.info, PlayEv.alloc (dataChunkSize file * 1 / 2),
          PlayEv.dmaSend (dataChunkSize file * 1 / 2), PlayEv.free, PlayEv.dmaReset]) := by
  intro file
  exact ⟨by unfold dataChunkOffset; omega, fun h => by simp [play_wav, h]⟩

theorem play_wav_offset_unchecked_witness :
    dataChunkOffset [1] = 12 + 8 + fmtChunkSize [1] ∧
    (play_wav [1]).1 = [PlayEv.info, PlayEv.alloc (dataChunkSize [1] * 1 / 2),
      PlayEv.dmaSend (dataChunkSize [1] * 1 / 2), PlayEv.free, PlayEv.dmaReset] :=
  ⟨(play_wav_offset_unchecked [1]).1, (play_wav_offset_unchecked [1]).2 (by decide)⟩

/-- C6: entered with a buffer whose first byte is zero, `play_wav` emits
the diagnostic and performs nothing else — no allocation, no DMA send,
no reset — and the only state change is the mode becoming paused. -/
theorem play_wav_zero_first_byte_aborts :
    ∀ file : List Nat, byteAt file 0 = 0 →
      (play_wav file).1 = [PlayEv.info, PlayEv.diagNoFile] ∧
      (play_wav file).2.1 = DemoMode.paused ∧
      (play_wav file).2.2 = [] := by
  intro file h
  simp [play_wav, h]

theorem play_wav_zero_first_byte_aborts_witness :
    (play_wav [0, 0, 0, 0]).1 = [PlayEv.info, PlayEv.diagNoFile] ∧
    (play_wav [0, 0, 0, 0]).2.1 = DemoMode.paused ∧
    (play_wav [0, 0, 0, 0]).2.2 = [] :=
  play_wav_zero_first_byte_aborts [0, 0, 0, 0] (by decide)

/-- C8: the sine-generation loop terminates with `sample` and `time` in
lock step from 0, so with the source constants (sample cap 256, period
bound `time < 48` from `96000 / 2000`) it executes exactly 48
iterations — at most 256 and stopping exactly when elapsed sample-time
reaches 48 — and its final state is the loop body iterated 48 times. -/
theorem tone_loop_iterations :
    ∀ samp : Nat → Nat,
      (dma_sw_tone_gen_loop samp).1 = 48 ∧
      (dma_sw_tone_gen_loop samp).1 ≤ 256 ∧
      (dma_sw_tone_gen_loop samp).2 = genRun samp 48 := by
  intro samp
  have h := genLoopAux_spec samp 256 0 0 initGenState
  have hm : min 256 (min (256 - 0) (48 - 0)) = 48 := by omega
  rw [hm] at h
  unfold dma_sw_tone_gen_loop genRun
  rw [h]
  exact ⟨rfl, by norm_num, rfl⟩

/-- C10: after `N` loop iterations the buffer holds exactly the packed
words of the complete 4-sample groups (a trailing incomplete group stays
in `temp` and is never written), every word fits in 16 bits, and the
byte count `i * 4` handed to `dma_send` equals `8 * (N / 4)`. -/
theorem tone_gen_packing_layout :
    ∀ (samp : Nat → Nat) (N : Nat),
      ((genRun samp N).buf = (List.range (N / 4)).flatMap (groupWords samp) ∧
       (genRun samp N).i = 2 * (N / 4) ∧
       (genRun samp N).i * 4 = 8 * (N / 4)) ∧
      ∀ w, w ∈ (genRun samp N).buf → w < 65536 := by
  intro samp N
  obtain ⟨q, r, hr3, hNqr⟩ : ∃ q r, r ≤ 3 ∧ N = 4 * q + r :=
    ⟨N / 4, N % 4, by omega, by omega⟩
  subst hNqr
  have hq : (4 * q + r) / 4 = q := by omega
  rw [hq]
  have hsplit : genRun samp (4 * q + r) =
      applyN samp (4 * q) r (applyN samp 0 (4 * q) initGenState) := by
    unfold genRun
    rw [applyN_add samp (4 * q) r 0 initGenState, Nat.zero_add]
  have hkeep := applyN_keeps samp q r hr3 (applyN samp 0 (4 * q) initGenState)
  have hrun := genRun_mul4 samp q
  unfold genRun at hrun
  rw [hsplit]
  refine ⟨⟨?_, ?_, ?_⟩, ?_⟩
  · rw [hkeep.2, hrun.2]
  · rw [hkeep.1, hrun.1]
  · rw [hkeep.1, hrun.1]; ring
  · intro w hw
    rw [hkeep.2, hrun.2] at hw
    rw [List.mem_flatMap] at hw
    obtain ⟨g, _, hwg⟩ := hw
    exact groupWords_bound samp g w hwg

theorem tone_gen_packing_layout_witness :
    (genRun (fun n => n) 4).buf = (List.range 1).flatMap (groupWords (fun n => n)) ∧
    (770 : Nat) < 65536 :=
  ⟨(tone_gen_packing_layout (fun n => n) 4).1.1,
   (tone_gen_packing_layout (fun n => n) 4).2 770 (by decide)⟩

end NexysA7
